import Mathlib

/-!
# NanoDB storage engine — a shallow embedding in Lean 4

This file embeds the core of the NanoDB storage engine (the CRUD engine
`src/core/engine.js`, the indexer `src/core/indexer.js`, the schema manager
`src/core/schema.js`, the write buffer `src/core/writeBuffer.js` and the
single-flight cache `src/utils/singleflight.js`) and proves or refutes the
frozen specification claims about it.

Modelling conventions:
* JavaScript objects (records) are association lists `List (String × Value)`
  where the entry closest to the head shadows later entries (a spread
  `{...old, ...patch}` therefore puts `patch` in front of `old`).
* A JS value read that yields `undefined` is modelled as `Option.none`.
* JS numbers are modelled as integers (`Int`); the engine's stored records
  only ever carry integer `_version` values.
* The LMDB keyspaces (`main`, `indexes`) and the in-memory cache are
  association-list key/value maps.
* Sequential executions of engine calls are modelled as pure state-passing
  functions; the concurrency claims are settled over explicit small-step
  transition systems whose atomic steps are the synchronous blocks between
  `await` suspension points of the JS source.
-/

namespace NanoDB

/-- JS primitive values as stored in records (JSON-encoded in LMDB).

JS numbers are doubles; the model carries them in two constructors:
`num n` is a number whose `toString()` prints as a plain integer, and
`dec neg ip frac` is a number printed with a decimal point — sign,
integer part, and the (big-endian, base-10) fraction digits, e.g.
`dec false 1 [5]` for `1.5`. Both have `typeof value === 'number'`. -/
inductive Value where
  | str (s : String)
  | num (n : Int)
  | dec (neg : Bool) (ip : Nat) (frac : List Nat)
  | bool (b : Bool)
  | null
deriving DecidableEq, Repr

/-- A record / JS object: association list, first binding wins. -/
abbrev Rec := List (String × Value)

/-- Property read `r[k]`; `none` models JS `undefined` (key absent). -/
def recGet (r : Rec) (k : String) : Option Value :=
  match r with
  | [] => none
  | (k2, v) :: rest => if k2 = k then some v else recGet rest k

/-- JS `delete r[k]` — removes every binding of `k`. -/
def recRemove (r : Rec) (k : String) : Rec :=
  r.filter (fun kv => kv.1 ≠ k)

/-- Setting a property to a possibly-undefined value: assigning `undefined`
behaves, under the `recGet` abstraction, like removing the key (this mirrors
`created: oldRecord.created` when the old record has no `created`). -/
def recSetOpt (r : Rec) (k : String) (v : Option Value) : Rec :=
  match v with
  | some w => (k, w) :: r
  | none => recRemove r k

/-- JS truthiness of a property read (`undefined`, `null`, `0`, `""`,
`false` are falsy). -/
def truthy : Option Value → Bool
  | none => false
  | some (.str s) => s ≠ ""
  | some (.num n) => n ≠ 0
  | some (.dec _ _ _) => true  -- a double printed with a fraction is nonzero
  | some (.bool b) => b
  | some .null => false

/-- Association-list store lookup (`db.get(key)`). -/
def alGet {α : Type} (l : List (String × α)) (k : String) : Option α :=
  match l with
  | [] => none
  | (k2, v) :: rest => if k2 = k then some v else alGet rest k

/-- Association-list store write (`db.put(key, value)`). -/
def alPut {α : Type} (l : List (String × α)) (k : String) (v : α) :
    List (String × α) :=
  (k, v) :: l.filter (fun kv => kv.1 ≠ k)

/-- Association-list store delete (`db.remove(key)`). -/
def alDel {α : Type} (l : List (String × α)) (k : String) :
    List (String × α) :=
  l.filter (fun kv => kv.1 ≠ k)

/-- Occurrences of `a` in a list (used to count workers and callers in a
given phase). -/
def countEq {α : Type} [DecidableEq α] (a : α) : List α → Nat
  | [] => 0
  | c :: t => (if c = a then 1 else 0) + countEq a t

/-! ## Decimal rendering of numbers (JS `value.toString()`)

`digitsBE n` is the big-endian list of decimal digits of `n`, written with
explicit fuel so that it reduces inside the kernel. -/

/-- Big-endian decimal digits, fuel-driven; `fuel ≥ n` always suffices. -/
def digitsBEAux : Nat → Nat → List Nat
  | 0, n => [n % 10]
  | fuel + 1, n => if n < 10 then [n] else digitsBEAux fuel (n / 10) ++ [n % 10]

/-- Big-endian decimal digits of a natural number. -/
def digitsBE (n : Nat) : List Nat := digitsBEAux n n

/-- Decimal string of a natural number, digit by digit. -/
def natToString (n : Nat) : String :=
  ⟨(digitsBE n).map Nat.digitChar⟩

/-- JS `Number.prototype.toString()` on an integer value. -/
def intToString (n : Int) : String :=
  if n < 0 then "-" ++ natToString n.natAbs else natToString n.toNat

/-- JS `Number.prototype.toString()` on a value printed with a decimal
point: sign, integer part, `.`, fraction digits. -/
def decToString (neg : Bool) (ip : Nat) (frac : List Nat) : String :=
  (if neg then "-" else "") ++ natToString ip ++ "." ++
    ⟨frac.map Nat.digitChar⟩

/-- JS `String.prototype.padStart(len, c)`. -/
def padStart (s : String) (len : Nat) (c : Char) : String :=
  ⟨List.replicate (len - s.data.length) c ++ s.data⟩

/-- JS template-literal rendering `${value}` of a primitive value. -/
def valueToKeyString : Value → String
  | .str s => s
  | .num n => intToString n
  | .dec neg ip frac => decToString neg ip frac
  | .bool b => Bool.rec "false" "true" b
  | .null => "null"

/-! ## Schema manager (`src/core/schema.js`) -/

/-- One field descriptor of a collection schema. -/
structure Field where
  name : String
  type : String := ""
  required : Bool := false
  unique : Bool := false
  indexed : Bool := false
  «private» : Bool := false
deriving DecidableEq, Repr

/-- A collection schema (the `fields` list is what `validate`, the indexer
and `_sanitize` consume). -/
structure Schema where
  fields : List Field
deriving DecidableEq, Repr

/-- The schema environment: what `schemaManager.get` returns for each
collection name (auto-created auth schemas are modelled as already
present). -/
abbrev SchemaEnv := String → Option Schema

/-- The `typeof value` string for our value model. -/
def typeofValue : Value → String
  | .str _ => "string"
  | .num _ => "number"
  | .dec _ _ _ => "number"
  | .bool _ => "boolean"
  | .null => "object"

/-- An apostrophe character (code point 39), used inside error messages. -/
def apos : String := ⟨[Char.ofNat 39]⟩

/-- The validation errors computed by `SchemaManager.validate`: a required
field must be present, non-null and non-empty; a declared non-`system` type
must match `typeof`. -/
def validateErrors (schema : Schema) (data : Rec) : List String :=
  schema.fields.foldl
    (fun errs field =>
      let value := recGet data field.name
      let errs :=
        if field.required &&
            (value = none || value = some .null || value = some (.str "")) then
          errs ++ ["Field " ++ apos ++ field.name ++ apos ++ " is required"]
        else errs
      if value ≠ none && value ≠ some .null && field.type ≠ "" &&
          field.type ≠ "system" then
        if field.type = "string" && typeofValue (value.getD .null) ≠ "string" then
          errs ++ ["Field " ++ apos ++ field.name ++ apos ++ " must be a string"]
        else if field.type = "number" && typeofValue (value.getD .null) ≠ "number" then
          errs ++ ["Field " ++ apos ++ field.name ++ apos ++ " must be a number"]
        else if field.type = "boolean" && typeofValue (value.getD .null) ≠ "boolean" then
          errs ++ ["Field " ++ apos ++ field.name ++ apos ++ " must be a boolean"]
        else errs
      else errs)
    []

/-- The `SchemaManager.validate` outcome: `true` when no schema is registered or
no errors were collected (the JS version throws on errors). -/
def validateOk (schema : Option Schema) (data : Rec) : Bool :=
  match schema with
  | none => true
  | some s => (validateErrors s data).isEmpty

/-! ## Indexer (`src/core/indexer.js`) -/

/-- Source `Indexer.getKey`: secondary-index key
`idx:<collection>:<field>:<normValue>:<id>`, numbers left-padded with `0`
to width 20. -/
def Indexer.getKey (collection field : String) (value : Value) (id : String) :
    String :=
  let normalizedVal :=
    match value with
    | .num n => padStart (intToString n) 20 '0'
    | .dec neg ip frac => padStart (decToString neg ip frac) 20 '0'
    | v => valueToKeyString v
  "idx:" ++ collection ++ ":" ++ field ++ ":" ++ normalizedVal ++ ":" ++ id

/-- Uniqueness key `uniq:<collection>:<field>:<value>`. -/
def uniqKey (collection field : String) (value : Value) : String :=
  "uniq:" ++ collection ++ ":" ++ field ++ ":" ++ valueToKeyString value

/-- A KV batch entry. The JS source passes `{type, key, value?, db}` records;
the `db` handle is rendered here as a typed constructor per keyspace. -/
inductive Op where
  | putMain (key : String) (value : Rec)
  | delMain (key : String)
  | putIdx (key : String) (value : String)
  | delIdx (key : String)
deriving DecidableEq, Repr

/-- Source `Indexer.getBatchOperations`: for each `indexed` field whose value
changed between `oldData` and `newData`, delete the old index (and
uniqueness) entries and put the new ones. -/
def Indexer.getBatchOperations (collection id : String)
    (newData oldData : Option Rec) (schema : Option Schema) : List Op :=
  match schema with
  | none => []
  | some s =>
    s.fields.foldl
      (fun ops field =>
        if !field.indexed then ops
        else
          let name := field.name
          let newVal := newData.bind (fun r => recGet r name)
          let oldVal := oldData.bind (fun r => recGet r name)
          if newVal = oldVal then ops
          else
            let ops :=
              match oldVal with
              | some ov =>
                if ov = .null then ops
                else
                  (ops ++ [Op.delIdx (Indexer.getKey collection name ov id)]) ++
                    (if field.unique then [Op.delIdx (uniqKey collection name ov)]
                     else [])
              | none => ops
            match newVal with
            | some nv =>
              if nv = .null then ops
              else
                (ops ++ [Op.putIdx (Indexer.getKey collection name nv id) id]) ++
                  (if field.unique then [Op.putIdx (uniqKey collection name nv) id]
                   else [])
            | none => ops)
      []

/-- Engine-level error taxonomy, with the message each `new Error(...)`
carries in the source (apostrophes in the JS messages are kept). -/
inductive EngineError where
  | validation (errs : List String)
  | uniqueness (field : String) (value : Value)
  | notFound
  | versionConflict
deriving DecidableEq, Repr

/-- The `message` property of the thrown `Error`. -/
def EngineError.message : EngineError → String
  | .validation errs => "Validation failed: " ++ String.intercalate ", " errs
  | .uniqueness field value =>
      "Field " ++ apos ++ field ++ apos ++ " must be unique. Value " ++ apos ++
        valueToKeyString value ++ apos ++ " already exists."
  | .notFound => "Record not found"
  | .versionConflict =>
      "Version conflict: record was modified by another request"

/-- Source `Indexer.checkUniqueness`: for each `unique` field with a truthy value,
look the value up in the uniqueness index; an owner different from
`currentId` is a violation (the first violating field throws). -/
def Indexer.checkUniqueness (indexes : List (String × String))
    (collection : String) (data : Rec) (schema : Option Schema)
    (currentId : Option String) : Option EngineError :=
  match schema with
  | none => none
  | some s => go s.fields
where
  go : List Field → Option EngineError
    | [] => none
    | field :: rest =>
      if field.unique && truthy (recGet data field.name) then
        let v := (recGet data field.name).getD .null
        match alGet indexes (uniqKey collection field.name v) with
        | some existingId =>
          if (match currentId with
              | some cid => existingId != cid
              | none => true : Bool) then
            some (EngineError.uniqueness field.name v)
          else go rest
        | none => go rest
      else go rest

/-! ## Database state and batch application (`src/core/db.js`)

The LRU cache lives in `src/utils/cache.js`, which is absent from the
repository snapshot. Modelled from the spec: §4.1 describes it as a bounded
map with `get/set/delete`; capacity eviction is irrelevant to the claims
settled here, so the cache is modelled as an unbounded key→record map. -/

/-- The shared state: the two LMDB keyspaces the engine writes and the
in-memory cache. -/
structure DBState where
  main : List (String × Rec)
  indexes : List (String × String)
  cache : List (String × Rec)
deriving DecidableEq, Repr

/-- The empty database. -/
def DBState.empty : DBState := ⟨[], [], []⟩

/-- Apply one batch entry to the keyspaces (`db.root.batch` applies the
whole list atomically; sequential folding models that commit). -/
def applyOp (st : DBState) : Op → DBState
  | .putMain k v => { st with main := alPut st.main k v }
  | .delMain k => { st with main := alDel st.main k }
  | .putIdx k v => { st with indexes := alPut st.indexes k v }
  | .delIdx k => { st with indexes := alDel st.indexes k }

/-- Apply a whole batch. -/
def applyOps (st : DBState) (ops : List Op) : DBState :=
  ops.foldl applyOp st

/-- One cache update `(key, value | null)`: `null` deletes. -/
def applyCacheUpdate (st : DBState) : String × Option Rec → DBState
  | (k, some v) => { st with cache := alPut st.cache k v }
  | (k, none) => { st with cache := alDel st.cache k }

/-- Apply a list of cache updates. -/
def applyCacheUpdates (st : DBState) (ups : List (String × Option Rec)) :
    DBState :=
  ups.foldl applyCacheUpdate st

/-! ## The Engine (`src/core/engine.js`, first file section of
`src/unnamed/part_005`) — sequential semantics.

Each CRUD entry point below is the straight-line execution of the JS
method under the durable write mode: when the method returns, the write
buffer has committed its batch and applied its cache updates (the engine
awaits the `add` callback). The single-flight wrapper degenerates, in a
sequential execution, to: serve from cache if present, otherwise run the
loader and (for truthy data) cache its result. -/

/-- Source `Engine._sanitize`: strip every `private` field. -/
def Engine.sanitize (Γ : SchemaEnv) (collection : String) (r : Rec) : Rec :=
  match Γ collection with
  | none => r
  | some s => s.fields.foldl
      (fun clean f => if f.«private» then recRemove clean f.name else clean) r

/-- Source `Engine.get` (sequential): single-flight over the cache; a cache hit is
returned as stored; on a miss the loader reads `db.main` and sanitizes, and
the single-flight wrapper caches the (truthy) loader result. -/
def Engine.get (Γ : SchemaEnv) (st : DBState) (collection id : String) :
    Option Rec × DBState :=
  let key := collection ++ ":" ++ id
  match alGet st.cache key with
  | some cached => (some cached, st)
  | none =>
    match alGet st.main key with
    | some data =>
      let s := Engine.sanitize Γ collection data
      (some s, { st with cache := alPut st.cache key s })
    | none => (none, st)

/-- Source `Engine._getRaw` (sequential): same single-flight wrapper, but the
loader does not sanitize. A cache hit is returned as stored. -/
def Engine.getRaw (st : DBState) (collection id : String) :
    Option Rec × DBState :=
  let key := collection ++ ":" ++ id
  match alGet st.cache key with
  | some cached => (some cached, st)
  | none =>
    match alGet st.main key with
    | some data => (some data, { st with cache := alPut st.cache key data })
    | none => (none, st)

/-- Source `Engine.create` (sequential; `id` is the fresh `nanoid(15)` and `now`
the ISO timestamp). Returns the sanitized record and the post-commit
state. -/
def Engine.create (Γ : SchemaEnv) (st : DBState) (collection id now : String)
    (data : Rec) : Except EngineError (Rec × DBState) :=
  let schema := Γ collection
  if !validateOk schema data then
    .error (.validation (validateErrors (schema.getD ⟨[]⟩) data))
  else
    let record : Rec :=
      ("_version", .num 1) :: ("updated", .str now) :: ("created", .str now) ::
        ("id", .str id) :: data
    match Indexer.checkUniqueness st.indexes collection record schema none with
    | some e => .error e
    | none =>
      let key := collection ++ ":" ++ id
      let ops := Op.putMain key record ::
        Indexer.getBatchOperations collection id (some record) none schema
      let st := applyOps st ops
      let st := applyCacheUpdates st [(key, some record)]
      .ok (Engine.sanitize Γ collection record, st)

/-- The merged record built by `Engine.update`:
`{...old, ...data, id, updated: now, created: old.created,
_version: (old._version || 0) + 1}`. -/
def Engine.mergeRecord (old data : Rec) (id now : String) : Rec :=
  let base := data ++ old
  let base := ("id", Value.str id) :: base
  let base := ("updated", Value.str now) :: base
  let base := recSetOpt base "created" (recGet old "created")
  let oldVersion : Int :=
    match recGet old "_version" with
    | some (.num n) => n
    | _ => 0
  ("_version", Value.num (oldVersion + 1)) :: base

/-- Source `Engine.update` (sequential). The diff base is `_getRaw`; an
`_expectedVersion` in the patch is checked against the current `_version`
and deleted from the patch before the merge. -/
def Engine.update (Γ : SchemaEnv) (st : DBState) (collection id now : String)
    (data : Rec) : Except EngineError (Rec × DBState) :=
  let key := collection ++ ":" ++ id
  let res := Engine.getRaw st collection id
  match res.1 with
  | none => .error .notFound
  | some oldRecord =>
    let st := res.2
    let schema := Γ collection
    let check : Except EngineError Rec :=
      match recGet data "_expectedVersion" with
      | some ev =>
        if recGet oldRecord "_version" ≠ some ev then .error .versionConflict
        else .ok (recRemove data "_expectedVersion")
      | none => .ok data
    match check with
    | .error e => .error e
    | .ok data =>
      let newRecord := Engine.mergeRecord oldRecord data id now
      if !validateOk schema newRecord then
        .error (.validation (validateErrors (schema.getD ⟨[]⟩) newRecord))
      else
        match Indexer.checkUniqueness st.indexes collection newRecord schema
            (some id) with
        | some e => .error e
        | none =>
          let ops := Op.putMain key newRecord ::
            Indexer.getBatchOperations collection id (some newRecord)
              (some oldRecord) schema
          let st := applyOps st ops
          let st := applyCacheUpdates st [(key, some newRecord)]
          .ok (Engine.sanitize Γ collection newRecord, st)

/-- Source `Engine.delete` (sequential). `expectedVersion` is the optional third
argument (`null` when not supplied). -/
def Engine.delete (Γ : SchemaEnv) (st : DBState) (collection id : String)
    (expectedVersion : Option Value) : Except EngineError (Bool × DBState) :=
  let key := collection ++ ":" ++ id
  let res := Engine.getRaw st collection id
  match res.1 with
  | none => .error .notFound
  | some oldRecord =>
    let st := res.2
    if (match expectedVersion with
        | some ev => recGet oldRecord "_version" != some ev
        | none => false : Bool) then
      .error .versionConflict
    else
      let schema := Γ collection
      let ops := Op.delMain key ::
        Indexer.getBatchOperations collection id none (some oldRecord) schema
      let st := applyOps st ops
      let st := applyCacheUpdates st [(key, none)]
      .ok (true, st)

/-! ## `Engine._retryOnConflict` (`src/unnamed/part_005`, lines 356-374)

The loop body `fn` is modelled as a map from the attempt number to that
attempt's outcome; the run log records the result, the back-off sleeps
performed (in ms, in order) and how many times `fn` was called. -/

/-- Predicate for `error.message.includes('Version conflict')` — substring test on the
thrown error's message. -/
def retriesOn (e : EngineError) : Bool :=
  decide (("Version conflict").data <:+: e.message.data)

/-- The outcome of a `_retryOnConflict` run. -/
structure RetryLog (α : Type) where
  result : Except EngineError α
  sleeps : List Nat
  calls : Nat
deriving Repr

/-- One pass of the retry loop: `remaining` is `maxRetries - attempt`. -/
def retryGo {α : Type} (fn : Nat → Except EngineError α) :
    Nat → Nat → List Nat → Option EngineError → RetryLog α
  | 0, calls, sleeps, lastError =>
    -- loop exhausted: `throw lastError` (reachable only with maxRetries = 0)
    ⟨.error (lastError.getD .notFound), sleeps, calls⟩
  | remaining + 1, calls, sleeps, _ =>
    match fn calls with
    | .ok a => ⟨.ok a, sleeps, calls + 1⟩
    | .error e =>
      if retriesOn e && remaining != 0 then
        retryGo fn remaining (calls + 1) (sleeps ++ [10 * 2 ^ calls]) (some e)
      else ⟨.error e, sleeps, calls + 1⟩

/-- Source `Engine._retryOnConflict(fn, maxRetries = 3)`: attempts are numbered
from 0; a `Version conflict` failure at attempt `< maxRetries - 1` sleeps
`10 * 2 ^ attempt` ms and retries; every other failure propagates at
once. -/
def retryOnConflict {α : Type} (fn : Nat → Except EngineError α)
    (maxRetries : Nat := 3) : RetryLog α :=
  retryGo fn maxRetries 0 [] none

/-! ## Write buffer (`src/core/writeBuffer.js`, first file section) -/

/-- A buffered intent: the ops list of one `add` call, tagged with a token
standing for JS object identity (`pendingCallbacks.findIndex(pc => pc.ops
=== reqOps)` matches by reference). -/
structure Intent where
  tag : Nat
  ops : List Op
deriving DecidableEq, Repr

/-- A pending callback entry `{ops, cacheUpdates, callback}`; the callback
itself is identified by its intent tag. -/
structure PendingCallback where
  tag : Nat
  ops : List Op
  cacheUpdates : List (String × Option Rec)
deriving DecidableEq, Repr

/-- The write buffer's mutable fields (plus the `nextTag` counter producing
fresh identity tags). `db` is the shared `DBState` against which flushes
commit. -/
structure WBState where
  buffer : List Intent
  flushQueue : List (List Intent)
  pendingCallbacks : List PendingCallback
  timer : Bool
  optimistic : Bool
  isShuttingDown : Bool
  totalOps : Nat
  nextTag : Nat
  db : DBState
deriving Repr

/-- What one `add` call delivered through its callback. -/
inductive AddOutcome where
  | overload (code : String)
  | acked
  | pending (tag : Nat)
deriving DecidableEq, Repr

/-- Source `WriteBuffer.add(ops, cacheUpdates, callback)`. During shutdown the
intent commits synchronously (`_flushNow([ops])`, whose identity lookup in
`pendingCallbacks` finds nothing for a fresh ops object, then the cache
updates apply and the callback fires). Otherwise: fail fast with the
`EOVERLOAD` error when more than 50 batches are pending, else push the
intent (and in optimistic mode apply the cache and ack at once). -/
def WriteBuffer.add (st : WBState) (ops : List Op)
    (cacheUpdates : List (String × Option Rec)) : WBState × AddOutcome :=
  if st.isShuttingDown then
    ({ st with
       db := applyCacheUpdates (applyOps st.db ops) cacheUpdates }, .acked)
  else if st.flushQueue.length > 50 then
    (st, .overload "EOVERLOAD")
  else
    let intent : Intent := ⟨st.nextTag, ops⟩
    let st := { st with
      buffer := st.buffer ++ [intent],
      totalOps := st.totalOps + 1,
      nextTag := st.nextTag + 1 }
    if st.optimistic then
      ({ st with
         db := applyCacheUpdates st.db cacheUpdates,
         timer := true }, .acked)
    else
      ({ st with
         pendingCallbacks := st.pendingCallbacks ++
           [⟨intent.tag, ops, cacheUpdates⟩],
         timer := true }, .pending intent.tag)

/-! ## Concurrent create against the buffered committer (claim C3)

`Engine.create` under the write buffer decomposes at its suspension
points into:
* phase 1 (synchronous): validate, build the record, run
  `checkUniqueness` against the *committed* `indexes` keyspace, compose
  the batch ops and enqueue them through `WriteBuffer.add`, then suspend
  awaiting the callback;
* the flush (at latest `flushInterval` ms later): one atomic
  `db.root.batch` commits every buffered intent, then the cache updates
  run and every callback fires with no error.

Two concurrent creates interleave as phase1 A, phase1 B, flush. -/

/-- Phase 1 of a buffered `Engine.create`. On success the intent sits in
the buffer and the caller is suspended on tag `t`. -/
def Engine.createPhase1 (Γ : SchemaEnv) (wb : WBState)
    (collection id now : String) (data : Rec) :
    Except EngineError (WBState × AddOutcome) :=
  let schema := Γ collection
  if !validateOk schema data then
    .error (.validation (validateErrors (schema.getD ⟨[]⟩) data))
  else
    let record : Rec :=
      ("_version", .num 1) :: ("updated", .str now) :: ("created", .str now) ::
        ("id", .str id) :: data
    match Indexer.checkUniqueness wb.db.indexes collection record schema none with
    | some e => .error e
    | none =>
      let key := collection ++ ":" ++ id
      let ops := Op.putMain key record ::
        Indexer.getBatchOperations collection id (some record) none schema
      .ok (WriteBuffer.add wb ops [(key, some record)])

/-- Source `WriteBuffer.flush` followed by the queue drain committing the swapped
batch: every buffered intent's ops go to LMDB in insertion order in one
atomic batch, then each intent's cache updates are applied and its
callback fires with no error. Returns the new state and the tags whose
callbacks were resolved successfully. -/
def WriteBuffer.flushCommit (st : WBState) : WBState × List Nat :=
  let batch := st.buffer
  let st := { st with
              buffer := [], timer := false,
              flushQueue := st.flushQueue ++ [batch] }
  -- the single worker shifts the head batch off the queue and commits it
  let popped := st.flushQueue.headD []
  let st := { st with flushQueue := st.flushQueue.drop 1 }
  let allOps := popped.foldl (fun acc i => acc ++ i.ops) []
  let db := applyOps st.db allOps
  let matched := st.pendingCallbacks.filter
    (fun pc => popped.any (fun i => i.tag = pc.tag))
  let rest := st.pendingCallbacks.filter
    (fun pc => !popped.any (fun i => i.tag = pc.tag))
  let db := matched.foldl (fun d pc => applyCacheUpdates d pc.cacheUpdates) db
  ({ st with db := db, pendingCallbacks := rest }, matched.map (·.tag))

/-! ## Flush-queue drain as a transition system (claim C7)

Atomic steps are the synchronous blocks of `writeBuffer.js` between
`await` suspension points. `_processFlushQueue`'s guard
`if (this.isFlushing) return; this.isFlushing = true;` is a single
synchronous block, hence one atomic step. Finer-than-JS granularity
elsewhere only adds interleavings, which is sound for the safety
property proved. A *worker* is an execution context that passed the
guard and is draining the queue; `committing` means its `await
this._flushNow(batch)` is in flight. -/

/-- Where a drain worker stands. -/
inductive WorkerPC where
  | idle        -- about to test the loop condition / pop the next batch
  | committing  -- awaiting `_flushNow` (a batch commit is in flight)
deriving DecidableEq, Repr

/-- Shared state of the flush path: pending intents, queued batches (as a
count), the `isFlushing` guard and the live drain workers. -/
structure FlushState where
  buffer : Nat
  queue : Nat
  isFlushing : Bool
  workers : List WorkerPC
deriving DecidableEq, Repr

/-- Initial state: nothing pending, guard down, no worker. -/
def FlushState.init : FlushState := ⟨0, 0, false, []⟩

/-- The atomic steps of the flush path. -/
inductive FlushStep : FlushState → FlushState → Prop where
  /-- `add` pushes an intent into the ingress buffer. -/
  | add (s : FlushState) :
      FlushStep s { s with buffer := s.buffer + 1 }
  /-- `flush()` with a non-empty buffer: swap the buffer onto the queue,
  then `_processFlushQueue()`'s guard — one synchronous block. If the
  guard is up the call returns; otherwise this context becomes the (sole)
  worker. -/
  | flushSwap (s : FlushState) (h : s.buffer ≠ 0) :
      FlushStep s
        (if s.isFlushing then
          { s with buffer := 0, queue := s.queue + 1 }
        else
          { s with
            buffer := 0, queue := s.queue + 1,
            isFlushing := true, workers := s.workers ++ [.idle] })
  /-- An idle worker pops the next batch and starts `_flushNow`. -/
  | pop (s : FlushState) (l r : List WorkerPC) (q : Nat)
      (hw : s.workers = l ++ WorkerPC.idle :: r) (hq : s.queue = q + 1) :
      FlushStep s
        { s with queue := q, workers := l ++ WorkerPC.committing :: r }
  /-- The awaited batch commit resolves; the worker applies cache updates,
  fires callbacks and loops. -/
  | commitOk (s : FlushState) (l r : List WorkerPC)
      (hw : s.workers = l ++ WorkerPC.committing :: r) :
      FlushStep s { s with workers := l ++ WorkerPC.idle :: r }
  /-- The awaited batch commit rejects: `catch`, then `finally` lowers the
  guard and re-checks the queue — one synchronous block. -/
  | commitFail (s : FlushState) (l r : List WorkerPC)
      (hw : s.workers = l ++ WorkerPC.committing :: r) :
      FlushStep s
        (if s.queue = 0 then
          { s with isFlushing := false, workers := l ++ r }
        else
          { s with workers := l ++ WorkerPC.idle :: r })
  /-- Queue drained: the loop exits, `finally` lowers the guard, and the
  re-check finds the queue empty — the worker leaves. -/
  | exit (s : FlushState) (l r : List WorkerPC)
      (hw : s.workers = l ++ WorkerPC.idle :: r) (hq : s.queue = 0) :
      FlushStep s { s with isFlushing := false, workers := l ++ r }

/-- Reachability from the initial flush state. -/
inductive FlushReach : FlushState → Prop where
  | init : FlushReach FlushState.init
  | step {s t : FlushState} : FlushReach s → FlushStep s t → FlushReach t

/-- Number of batch commits currently in flight. -/
def commitsInFlight (s : FlushState) : Nat :=
  countEq WorkerPC.committing s.workers

/-! ## Single-flight cache fill as a transition system (claim C8)

`N` callers run `SingleflightCache.get(k, loader)` for one cold key `k`.
Each caller's synchronous prefix (cache probe, in-flight probe, and —
when it starts the load — invoking the loader and registering the shared
promise) is one atomic step; the promise body's continuation after
`await loader()` (cache write, `finally` delete from the in-flight map,
waking the joiners) is another. `loads` counts loader invocations, which
is exactly the number of KV reads `Engine.get`'s loader performs. -/

/-- Where one caller stands. -/
inductive CallerPC where
  | start  -- has not yet run its synchronous prefix
  | own    -- started the load, awaiting the loader
  | join   -- joined the in-flight promise
  | done   -- returned
deriving DecidableEq, Repr

/-- Shared single-flight state for the one key `k`. -/
structure SFState where
  cachePresent : Bool   -- `this.cache.get(k) !== undefined`
  inflight : Bool       -- `this.inflight.has(k)`
  loads : Nat           -- loader invocations (= KV reads of `k`)
  resolved : Bool       -- the first load has completed
  callers : List CallerPC
deriving DecidableEq, Repr

/-- Cold start: key absent from cache, no in-flight entry, `n` callers. -/
def SFState.cold (n : Nat) : SFState :=
  ⟨false, false, 0, false, List.replicate n .start⟩

/-- The atomic steps of `SingleflightCache.get`. -/
inductive SFStep : SFState → SFState → Prop where
  /-- Cache hit: the caller returns the cached value unchanged. -/
  | hit (s : SFState) (l r : List CallerPC)
      (hc : s.callers = l ++ CallerPC.start :: r) (h : s.cachePresent = true) :
      SFStep s { s with callers := l ++ CallerPC.done :: r }
  /-- Cache miss, an in-flight entry exists: the caller awaits it. -/
  | joinFlight (s : SFState) (l r : List CallerPC)
      (hc : s.callers = l ++ CallerPC.start :: r)
      (h : s.cachePresent = false) (hf : s.inflight = true) :
      SFStep s { s with callers := l ++ CallerPC.join :: r }
  /-- Cache miss, nothing in flight: the caller invokes the loader (one KV
  read) and registers the shared promise — all before any suspension. -/
  | load (s : SFState) (l r : List CallerPC)
      (hc : s.callers = l ++ CallerPC.start :: r)
      (h : s.cachePresent = false) (hf : s.inflight = false) :
      SFStep s
        { s with
          callers := l ++ CallerPC.own :: r,
          inflight := true, loads := s.loads + 1 }
  /-- The loader resolves with `data` (`none` models a falsy result, which
  is not cached); the `finally` clears the in-flight entry, and owner and
  joiners return. -/
  | resolveOk (s : SFState) (l r : List CallerPC) (found : Bool)
      (hc : s.callers = l ++ CallerPC.own :: r) :
      SFStep s
        { s with
          callers := (l ++ CallerPC.done :: r).map
            (fun c => if c = CallerPC.join then CallerPC.done else c),
          inflight := false, cachePresent := found, resolved := true }
  /-- The loader throws; the `finally` still clears the in-flight entry,
  and owner and joiners see the rejection. -/
  | resolveErr (s : SFState) (l r : List CallerPC)
      (hc : s.callers = l ++ CallerPC.own :: r) :
      SFStep s
        { s with
          callers := (l ++ CallerPC.done :: r).map
            (fun c => if c = CallerPC.join then CallerPC.done else c),
          inflight := false, resolved := true }

/-- Reachability from a cold start with `n` callers. -/
inductive SFReach (n : Nat) : SFState → Prop where
  | init : SFReach n (SFState.cold n)
  | step {s t : SFState} : SFReach n s → SFStep s t → SFReach n t

/-! ## Lexicographic order on keys (claim C9)

`strLtb` is the lexicographic order on UTF-8 key strings, written as an
executable Boolean comparison (character by character, shorter prefix
first) — the order in which an ordered KV store enumerates string keys. -/

/-- Lexicographic comparison of character lists. -/
def listLtb : List Char → List Char → Bool
  | [], [] => false
  | [], _ :: _ => true
  | _ :: _, [] => false
  | a :: as, b :: bs =>
    if a < b then true
    else if b < a then false
    else listLtb as bs

/-- Lexicographic comparison of strings. -/
def strLtb (s t : String) : Bool := listLtb s.data t.data

/-- The numeric value of a big-endian digit list. -/
def valBE (l : List Nat) : Nat := l.foldl (fun a d => 10 * a + d) 0

/-- The zero-padded width-20 digit list behind `padStart(20, '0')`. -/
def paddedDigits (n : Nat) : List Nat :=
  List.replicate (20 - (digitsBE n).length) 0 ++ digitsBE n

/-- The numeric value a `Value` denotes when it is a JS number: `num n`
denotes `n`, and `dec neg ip frac` denotes
`±(ip + 0.frac)` — e.g. `dec false 1 [5]` denotes `3/2`. -/
def numValue : Value → Option ℚ
  | .num n => some (n : ℚ)
  | .dec neg ip frac =>
    some ((cond neg (-1) 1) *
      ((ip : ℚ) + (valBE frac : ℚ) / 10 ^ frac.length))
  | _ => none

/-- Whether a batch entry only touches the `indexes` keyspace. -/
def Op.isIdx : Op → Bool
  | .putIdx _ _ => true
  | .delIdx _ => true
  | _ => false

/-! ## Concrete scenario data

The auth schema `SchemaManager.get` auto-creates for `users` (with the
three system fields `SchemaManager.create` appends; `updated` is indexed).
The unused `default` marker of `verified` is not represented, as no engine
path reads it. -/

/-- The auto-created `users` schema. -/
def usersSchema : Schema :=
  ⟨[⟨"email", "string", true, true, true, false⟩,
    ⟨"password", "string", true, false, false, true⟩,
    ⟨"verified", "boolean", false, false, false, false⟩,
    ⟨"id", "system", false, false, false, false⟩,
    ⟨"created", "system", false, false, false, false⟩,
    ⟨"updated", "system", false, false, true, false⟩]⟩

/-- A user-defined collection `notes` whose `secret` field is `private`
but not `required`. -/
def notesSchema : Schema :=
  ⟨[⟨"title", "string", false, false, false, false⟩,
    ⟨"secret", "string", false, false, false, true⟩,
    ⟨"id", "system", false, false, false, false⟩,
    ⟨"created", "system", false, false, false, false⟩,
    ⟨"updated", "system", false, false, true, false⟩]⟩

/-- Schema environment for the concrete scenarios. -/
def testEnv : SchemaEnv := fun c =>
  if c = "users" then some usersSchema
  else if c = "notes" then some notesSchema
  else none

/-- A pre-existing `notes` record holding a private `secret`. -/
def noteRecord : Rec :=
  [("id", .str "note0000000000A"), ("created", .str "2026-01-01T00:00:00Z"),
   ("updated", .str "2026-01-01T00:00:00Z"), ("_version", .num 1),
   ("title", .str "t"), ("secret", .str "s3cret")]

/-- A database whose `main` keyspace holds `noteRecord` and whose cache is
cold (e.g. after a restart). -/
def noteDB : DBState :=
  ⟨[("notes:note0000000000A", noteRecord)], [], []⟩

/-- An idle write buffer in durable mode over an empty database. -/
def wbInit : WBState :=
  ⟨[], [], [], false, false, false, 0, 0, DBState.empty⟩

/-- A write buffer whose flush queue is saturated (51 pending batches). -/
def wbOverloaded : WBState :=
  ⟨[], List.replicate 51 [], [], false, false, false, 0, 0, DBState.empty⟩

/-- A loop body that hits a version conflict on every attempt. -/
def conflictFn : Nat → Except EngineError Unit :=
  fun _ => .error .versionConflict

/-- A concrete successful update of `noteRecord` carrying a matching
`_expectedVersion` (used to instantiate the C10 theorem). -/
def c10Result : Rec × DBState :=
  (Engine.update testEnv noteDB "notes" "note0000000000A"
      "2026-01-02T00:00:00Z"
      [("_expectedVersion", .num 1), ("title", .str "b")]).toOption.getD
    ([], DBState.empty)

/-- The primary row that update left behind. -/
def c10Stored : Rec :=
  (alGet c10Result.2.main "notes:note0000000000A").getD []

theorem valBE_foldl_eq (l : List Nat) (a : Nat) :
    l.foldl (fun x d => 10 * x + d) a = a * 10 ^ l.length + valBE l := by
  induction l generalizing a with
  | nil => simp [valBE]
  | cons d t ih =>
    simp only [List.foldl_cons, List.length_cons, valBE, Nat.mul_zero,
      Nat.zero_add]
    rw [ih (10 * a + d), ih d]
    ring

theorem valBE_cons (d : Nat) (t : List Nat) :
    valBE (d :: t) = d * 10 ^ t.length + valBE t := by
  simp only [valBE, List.foldl_cons, Nat.mul_zero, Nat.zero_add]
  rw [valBE_foldl_eq t d]
  simp [valBE]

theorem valBE_append_singleton (l : List Nat) (d : Nat) :
    valBE (l ++ [d]) = 10 * valBE l + d := by
  simp only [valBE, List.foldl_append, List.foldl_cons, List.foldl_nil]

theorem valBE_lt_pow (l : List Nat) (h : ∀ d ∈ l, d < 10) :
    valBE l < 10 ^ l.length := by
  induction l with
  | nil => simp [valBE]
  | cons d t ih =>
    have hd : d < 10 := h d (by simp)
    have ht := ih (fun x hx => h x (by simp [hx]))
    rw [valBE_cons]
    calc d * 10 ^ t.length + valBE t
        < d * 10 ^ t.length + 10 ^ t.length := by omega
      _ = (d + 1) * 10 ^ t.length := by ring
      _ ≤ 10 * 10 ^ t.length := by
          exact Nat.mul_le_mul_right _ (by omega)
      _ = 10 ^ (d :: t).length := by
          simp [List.length_cons, pow_succ]; ring

theorem valBE_replicate_zero (m : Nat) (l : List Nat) :
    valBE (List.replicate m 0 ++ l) = valBE l := by
  induction m with
  | zero => simp
  | succ k ih =>
    simp only [List.replicate_succ, List.cons_append, valBE, List.foldl_cons]
    simpa [valBE] using ih

theorem digitsBEAux_lt_ten (fuel n : Nat) :
    ∀ d ∈ digitsBEAux fuel n, n ≤ fuel → d < 10 := by
  induction fuel generalizing n with
  | zero => intro d hd _; simp only [digitsBEAux, List.mem_singleton] at hd
            omega
  | succ k ih =>
    intro d hd hn
    simp only [digitsBEAux] at hd
    by_cases h : n < 10
    · simp [h] at hd; omega
    · simp only [h, if_false, List.mem_append, List.mem_singleton] at hd
      rcases hd with hd | hd
      · exact ih (n / 10) d hd (by omega)
      · omega

theorem digitsBEAux_val (fuel n : Nat) (hn : n ≤ fuel) :
    valBE (digitsBEAux fuel n) = n := by
  induction fuel generalizing n with
  | zero =>
    have : n = 0 := by omega
    subst this; simp [digitsBEAux, valBE]
  | succ k ih =>
    simp only [digitsBEAux]
    by_cases h : n < 10
    · simp [h, valBE]
    · have hdiv : n / 10 ≤ k := by
        have : n / 10 < n := Nat.div_lt_self (by omega) (by omega)
        omega
      simp only [h, if_false]
      rw [valBE_append_singleton, ih (n / 10) hdiv]
      omega

theorem digitsBEAux_length (fuel n K : Nat) (hn : n ≤ fuel)
    (hK : 0 < K) (h : n < 10 ^ K) : (digitsBEAux fuel n).length ≤ K := by
  induction fuel generalizing n K with
  | zero => simpa [digitsBEAux] using hK
  | succ k ih =>
    simp only [digitsBEAux]
    by_cases hten : n < 10
    · simpa [hten] using hK
    · have hdivfuel : n / 10 ≤ k := by
        have : n / 10 < n := Nat.div_lt_self (by omega) (by omega)
        omega
      have hK2 : 0 < K - 1 := by
        rcases Nat.lt_or_ge K 2 with hK1 | hK1
        · interval_cases K <;> omega
        · omega
      have hdivpow : n / 10 < 10 ^ (K - 1) := by
        rw [Nat.div_lt_iff_lt_mul (by omega)]
        calc n < 10 ^ K := h
          _ = 10 ^ (K - 1) * 10 := by
              rw [← pow_succ]; congr 1; omega
      have := ih (n / 10) (K - 1) hdivfuel hK2 hdivpow
      simp only [hten, if_false, List.length_append, List.length_cons,
        List.length_nil]
      omega

/-- Digits below 10 map to strictly ordered characters. -/
theorem digitChar_lt :
    ∀ d1 : Nat, d1 < 10 → ∀ d2 : Nat, d2 < 10 →
      (d1 < d2 → Nat.digitChar d1 < Nat.digitChar d2) := by
  decide

/-- Digit characters are distinct below 10. -/
theorem digitChar_irrefl_aux (d1 d2 : Nat) (h1 : d1 < 10) (h2 : d2 < 10)
    (h : d1 = d2) :
    ¬(Nat.digitChar d1 < Nat.digitChar d2) ∧
      ¬(Nat.digitChar d2 < Nat.digitChar d1) := by
  subst h
  constructor <;> exact fun hlt => (Nat.lt_irrefl _ hlt)

/-- On equal-length digit lists, numeric order gives lexicographic order
of the digit-character renderings. -/
theorem listLtb_of_valBE_lt (l1 l2 : List Nat)
    (hlen : l1.length = l2.length)
    (h1 : ∀ d ∈ l1, d < 10) (h2 : ∀ d ∈ l2, d < 10)
    (h : valBE l1 < valBE l2) :
    listLtb (l1.map Nat.digitChar) (l2.map Nat.digitChar) = true := by
  induction l1 generalizing l2 with
  | nil =>
    cases l2 with
    | nil => simp [valBE] at h
    | cons b bs => simp at hlen
  | cons a as ih =>
    cases l2 with
    | nil => simp at hlen
    | cons b bs =>
      have ha : a < 10 := h1 a (by simp)
      have hb : b < 10 := h2 b (by simp)
      have hlen2 : as.length = bs.length := by simpa using hlen
      rcases Nat.lt_trichotomy a b with hab | hab | hab
      · simp only [List.map_cons, listLtb, digitChar_lt a ha b hb hab,
          if_true]
      · have hnab := digitChar_irrefl_aux a b ha hb hab
        have hvtail : valBE as < valBE bs := by
          rw [valBE_cons, valBE_cons, hlen2, hab] at h
          omega
        have := ih bs hlen2 (fun d hd => h1 d (List.mem_cons_of_mem _ hd))
          (fun d hd => h2 d (List.mem_cons_of_mem _ hd)) hvtail
        simp only [List.map_cons, listLtb, if_neg hnab.1, if_neg hnab.2]
        exact this
      · exfalso
        have hv1 : valBE (a :: as) ≥ a * 10 ^ as.length := by
          rw [valBE_cons]; omega
        have hv2 : valBE bs < 10 ^ bs.length :=
          valBE_lt_pow bs (fun d hd => h2 d (by simp [hd]))
        have : valBE (b :: bs) < (b + 1) * 10 ^ bs.length := by
          rw [valBE_cons]; nlinarith [pow_pos (show 0 < 10 by omega) bs.length]
        have hge : (b + 1) * 10 ^ bs.length ≤ a * 10 ^ as.length := by
          rw [hlen2]
          exact Nat.mul_le_mul_right _ (by omega)
        omega

/-- A shared prefix is transparent for the comparison. -/
theorem listLtb_append_left (p x y : List Char) :
    listLtb (p ++ x) (p ++ y) = listLtb x y := by
  induction p with
  | nil => rfl
  | cons c cs ih =>
    have hi : ¬(c < c) := lt_irrefl c
    simp only [List.cons_append, listLtb, if_neg hi]
    exact ih

/-- A shared suffix after equal-length, lexicographically ordered bodies
preserves the comparison. -/
theorem listLtb_append_right (x y s : List Char)
    (hlen : x.length = y.length) (h : listLtb x y = true) :
    listLtb (x ++ s) (y ++ s) = true := by
  induction x generalizing y with
  | nil =>
    cases y with
    | nil => simp [listLtb] at h
    | cons b bs => simp at hlen
  | cons a as ih =>
    cases y with
    | nil => simp at hlen
    | cons b bs =>
      have hlen2 : as.length = bs.length := by simpa using hlen
      simp only [listLtb] at h
      simp only [List.cons_append, listLtb]
      by_cases hab : a < b
      · simp [hab]
      · simp only [hab, if_false] at h ⊢
        by_cases hba : b < a
        · simp [hba] at h
        · simp only [hba, if_false] at h ⊢
          exact ih bs hlen2 h

theorem padStart_natToString_data (n : Nat) :
    (padStart (natToString n) 20 '0').data =
      (paddedDigits n).map Nat.digitChar := by
  simp only [padStart, natToString, paddedDigits, List.map_append,
    List.map_replicate, List.length_map]
  rfl

theorem paddedDigits_length (n : Nat) (h : n < 10 ^ 20) :
    (paddedDigits n).length = 20 := by
  have hlen : (digitsBE n).length ≤ 20 :=
    digitsBEAux_length n n 20 (Nat.le_refl n) (by omega) h
  simp only [paddedDigits, List.length_append, List.length_replicate]
  omega

theorem paddedDigits_lt_ten (n : Nat) : ∀ d ∈ paddedDigits n, d < 10 := by
  intro d hd
  simp only [paddedDigits, List.mem_append, List.mem_replicate] at hd
  rcases hd with hd | hd
  · omega
  · exact digitsBEAux_lt_ten n n d hd (Nat.le_refl n)

theorem paddedDigits_val (n : Nat) : valBE (paddedDigits n) = n := by
  simp only [paddedDigits, valBE_replicate_zero]
  exact digitsBEAux_val n n (Nat.le_refl n)

/-- Core monotonicity: below `10 ^ 20`, the padded decimal renderings are
lexicographically ordered like the numbers. -/
theorem paddedDigits_listLtb (a b : Nat) (hab : a < b) (hb : b < 10 ^ 20) :
    listLtb ((paddedDigits a).map Nat.digitChar)
      ((paddedDigits b).map Nat.digitChar) = true := by
  have ha20 : a < 10 ^ 20 := lt_trans hab hb
  apply listLtb_of_valBE_lt
  · rw [paddedDigits_length a ha20, paddedDigits_length b hb]
  · exact paddedDigits_lt_ten a
  · exact paddedDigits_lt_ten b
  · rw [paddedDigits_val, paddedDigits_val]; exact hab

/-! ## Record and store lemmas -/

theorem recGet_remove_self (r : Rec) (k : String) :
    recGet (recRemove r k) k = none := by
  induction r with
  | nil => rfl
  | cons kv t ih =>
    obtain ⟨k2, v⟩ := kv
    by_cases h : k2 = k
    · simp [recRemove, List.filter_cons, h] at ih ⊢
      simpa [recRemove] using ih
    · simp only [recRemove, List.filter_cons]
      simp only [decide_not]
      rw [if_pos (by simpa using h)]
      simp only [recGet, if_neg h]
      simpa [recRemove] using ih

theorem recGet_remove_ne (r : Rec) (k n : String) (h : n ≠ k) :
    recGet (recRemove r n) k = recGet r k := by
  induction r with
  | nil => rfl
  | cons kv t ih =>
    obtain ⟨k2, v⟩ := kv
    by_cases h2 : k2 = n
    · subst h2
      simp only [recRemove, List.filter_cons, decide_not]
      rw [if_neg (by simp)]
      simp only [recGet, if_neg h]
      simpa [recRemove] using ih
    · simp only [recRemove, List.filter_cons, decide_not]
      rw [if_pos (by simpa using h2)]
      simp only [recGet]
      by_cases h3 : k2 = k
      · simp [h3]
      · simp only [if_neg h3]
        simpa [recRemove] using ih

theorem recGet_append (l1 l2 : Rec) (k : String) :
    recGet (l1 ++ l2) k =
      (match recGet l1 k with
       | some v => some v
       | none => recGet l2 k) := by
  induction l1 with
  | nil => simp [recGet]
  | cons kv t ih =>
    obtain ⟨k2, v⟩ := kv
    by_cases h : k2 = k
    · simp [recGet, h]
    · simp only [List.cons_append, recGet, if_neg h]
      exact ih

theorem alGet_put_self {α : Type} (l : List (String × α)) (k : String)
    (v : α) : alGet (alPut l k v) k = some v := by
  simp [alPut, alGet]

theorem applyCacheUpdate_main (st : DBState) (u : String × Option Rec) :
    (applyCacheUpdate st u).main = st.main := by
  obtain ⟨k, v⟩ := u
  cases v <;> rfl

theorem applyCacheUpdates_main (ups : List (String × Option Rec))
    (st : DBState) : (applyCacheUpdates st ups).main = st.main := by
  induction ups generalizing st with
  | nil => rfl
  | cons u t ih =>
    simp only [applyCacheUpdates, List.foldl_cons]
    rw [show List.foldl applyCacheUpdate (applyCacheUpdate st u) t =
      applyCacheUpdates (applyCacheUpdate st u) t from rfl, ih,
      applyCacheUpdate_main]

theorem applyOps_idx_main (ops : List Op) (st : DBState)
    (h : ∀ op ∈ ops, op.isIdx = true) : (applyOps st ops).main = st.main := by
  induction ops generalizing st with
  | nil => rfl
  | cons op t ih =>
    have hop := h op (by simp)
    have hmain : (applyOp st op).main = st.main := by
      cases op <;> simp_all [Op.isIdx, applyOp]
    simp only [applyOps, List.foldl_cons]
    rw [show List.foldl applyOp (applyOp st op) t =
      applyOps (applyOp st op) t from rfl,
      ih _ (fun o ho => h o (by simp [ho])), hmain]

theorem getBatchOperations_isIdx (collection id : String)
    (newData oldData : Option Rec) (schema : Option Schema) :
    ∀ op ∈ Indexer.getBatchOperations collection id newData oldData schema,
      op.isIdx = true := by
  cases schema with
  | none => intro op h; simp [Indexer.getBatchOperations] at h
  | some s =>
    simp only [Indexer.getBatchOperations]
    have main : ∀ (fields : List Field) (init : List Op),
        (∀ op ∈ init, op.isIdx = true) →
        ∀ op ∈ fields.foldl
          (fun ops field =>
            if !field.indexed then ops
            else
              let name := field.name
              let newVal := newData.bind (fun r => recGet r name)
              let oldVal := oldData.bind (fun r => recGet r name)
              if newVal = oldVal then ops
              else
                let ops :=
                  match oldVal with
                  | some ov =>
                    if ov = .null then ops
                    else
                      (ops ++ [Op.delIdx (Indexer.getKey collection name ov id)]) ++
                        (if field.unique then
                          [Op.delIdx (uniqKey collection name ov)]
                         else [])
                  | none => ops
                match newVal with
                | some nv =>
                  if nv = .null then ops
                  else
                    (ops ++ [Op.putIdx (Indexer.getKey collection name nv id) id]) ++
                      (if field.unique then
                        [Op.putIdx (uniqKey collection name nv) id]
                       else [])
                | none => ops)
          init, op.isIdx = true := by
      intro fields
      induction fields with
      | nil => intro init hinit op hop; exact hinit op hop
      | cons f t ihf =>
        intro init hinit op hop
        refine ihf _ ?_ op hop
        intro o ho
        dsimp only at ho
        split at ho
        · exact hinit o ho
        · split at ho
          · exact hinit o ho
          · have hmid : ∀ o2 ∈ (match oldData.bind (fun r => recGet r f.name) with
              | some ov =>
                if ov = Value.null then init
                else
                  (init ++ [Op.delIdx (Indexer.getKey collection f.name ov id)]) ++
                    (if f.unique then [Op.delIdx (uniqKey collection f.name ov)]
                     else [])
              | none => init), o2.isIdx = true := by
              intro o2 ho2
              split at ho2
              · split at ho2
                · exact hinit o2 ho2
                · simp only [List.mem_append, List.mem_singleton] at ho2
                  rcases ho2 with (ho2 | ho2) | ho2
                  · exact hinit o2 ho2
                  · subst ho2; rfl
                  · split at ho2
                    · simp only [List.mem_singleton] at ho2
                      subst ho2; rfl
                    · simp at ho2
              · exact hinit o2 ho2
            split at ho
            · split at ho
              · exact hmid o ho
              · simp only [List.mem_append, List.mem_singleton] at ho
                rcases ho with (ho | ho) | ho
                · exact hmid o ho
                · subst ho; rfl
                · split at ho
                  · simp only [List.mem_singleton] at ho
                    subst ho; rfl
                  · simp at ho
            · exact hmid o ho
    exact main s.fields [] (by intro op h; simp at h)

/-- Sanitization does not disturb a key no private field carries. -/
theorem sanitize_recGet (Γ : SchemaEnv) (c : String) (r : Rec) (k : String)
    (h : ∀ s, Γ c = some s → ∀ f ∈ s.fields, f.«private» = true →
      f.name ≠ k) :
    recGet (Engine.sanitize Γ c r) k = recGet r k := by
  unfold Engine.sanitize
  cases hs : Γ c with
  | none => rfl
  | some s =>
    have main : ∀ (fields : List Field) (r0 : Rec),
        (∀ f ∈ fields, f.«private» = true → f.name ≠ k) →
        recGet (fields.foldl
          (fun clean f =>
            if f.«private» then recRemove clean f.name else clean) r0) k =
          recGet r0 k := by
      intro fields
      induction fields with
      | nil => intro r0 _; rfl
      | cons f t ihf =>
        intro r0 hf
        simp only [List.foldl_cons]
        rw [ihf _ (fun g hg => hf g (by simp [hg]))]
        by_cases hp : f.«private» = true
        · rw [if_pos hp]
          exact recGet_remove_ne r0 k f.name (hf f (by simp) hp)
        · rw [if_neg hp]
    exact main s.fields r (h s hs)

/-! ## Mutual exclusion of the flush worker -/

/-- Inductive invariant: the `isFlushing` guard is up exactly while a
worker lives, and there is at most one worker. -/
def FlushInv (s : FlushState) : Prop :=
  (s.isFlushing = true ↔ s.workers ≠ []) ∧ s.workers.length ≤ 1

theorem flushInv_init : FlushInv FlushState.init := by
  constructor <;> simp [FlushState.init]

theorem flushInv_preserved {s t : FlushState} (inv : FlushInv s)
    (h : FlushStep s t) : FlushInv t := by
  obtain ⟨h1, h2⟩ := inv
  cases h with
  | add => exact ⟨h1, h2⟩
  | flushSwap hbuf =>
    by_cases hf : s.isFlushing = true
    · rw [if_pos hf]
      exact ⟨h1, h2⟩
    · rw [if_neg hf]
      have hw : s.workers = [] := by
        by_contra hne
        exact hf (h1.mpr hne)
      constructor
      · simp [hw]
      · simp [hw]
  | pop l r q hw hq =>
    have hne : s.workers ≠ [] := by simp [hw]
    have hft : s.isFlushing = true := h1.mpr hne
    constructor
    · simp [hft]
    · rw [hw] at h2
      simp only [List.length_append, List.length_cons] at h2 ⊢
      omega
  | commitOk l r hw =>
    have hne : s.workers ≠ [] := by simp [hw]
    have hft : s.isFlushing = true := h1.mpr hne
    constructor
    · simp [hft]
    · rw [hw] at h2
      simp only [List.length_append, List.length_cons] at h2 ⊢
      omega
  | commitFail l r hw =>
    have hlen : l.length + r.length + 1 ≤ 1 := by
      rw [hw] at h2
      simp only [List.length_append, List.length_cons] at h2
      omega
    have hl : l = [] := List.eq_nil_of_length_eq_zero (by omega)
    have hr : r = [] := List.eq_nil_of_length_eq_zero (by omega)
    by_cases hq : s.queue = 0
    · rw [if_pos hq]
      subst hl; subst hr
      constructor <;> simp
    · rw [if_neg hq]
      have hne : s.workers ≠ [] := by simp [hw]
      have hft : s.isFlushing = true := h1.mpr hne
      constructor
      · simp [hft]
      · rw [hw] at h2
        simp only [List.length_append, List.length_cons] at h2 ⊢
        omega
  | exit l r hw hq =>
    have hlen : l.length + r.length + 1 ≤ 1 := by
      rw [hw] at h2
      simp only [List.length_append, List.length_cons] at h2
      omega
    have hl : l = [] := List.eq_nil_of_length_eq_zero (by omega)
    have hr : r = [] := List.eq_nil_of_length_eq_zero (by omega)
    subst hl; subst hr
    constructor <;> simp

theorem flushReach_inv {s : FlushState} (h : FlushReach s) : FlushInv s := by
  induction h with
  | init => exact flushInv_init
  | step _ hstep ih => exact flushInv_preserved ih hstep

/-! ## At-most-one loader for the single-flight cache -/

theorem countEq_append {α : Type} [DecidableEq α] (a : α) (l1 l2 : List α) :
    countEq a (l1 ++ l2) = countEq a l1 + countEq a l2 := by
  induction l1 with
  | nil => simp [countEq]
  | cons c t ih =>
    show (if c = a then 1 else 0) + countEq a (t ++ l2) =
      ((if c = a then 1 else 0) + countEq a t) + countEq a l2
    rw [ih]
    omega

theorem countEq_le_length {α : Type} [DecidableEq α] (a : α) (l : List α) :
    countEq a l ≤ l.length := by
  induction l with
  | nil => simp [countEq]
  | cons c t ih =>
    simp only [countEq, List.length_cons]
    by_cases h : c = a <;> simp [h] <;> omega

theorem countEq_replicate_ne {α : Type} [DecidableEq α] (a b : α)
    (h : b ≠ a) (n : Nat) : countEq a (List.replicate n b) = 0 := by
  induction n with
  | zero => rfl
  | succ k ih => simp [List.replicate_succ, countEq, h, ih]

/-- Inductive invariant for the pre-resolution window: the cache stays
cold, nobody has returned, and either exactly one load is in flight (one
owner, one KV read) or nothing has happened at all. -/
def SFInv (s : SFState) : Prop :=
  s.resolved = false →
    s.cachePresent = false ∧
    countEq CallerPC.done s.callers = 0 ∧
    ((s.inflight = true ∧ s.loads = 1 ∧
        countEq CallerPC.own s.callers = 1) ∨
     (s.inflight = false ∧ s.loads = 0 ∧
        countEq CallerPC.own s.callers = 0 ∧
        countEq CallerPC.join s.callers = 0))

theorem sfInv_init (n : Nat) : SFInv (SFState.cold n) := by
  intro _
  refine ⟨rfl, ?_, Or.inr ⟨rfl, rfl, ?_, ?_⟩⟩ <;>
    exact countEq_replicate_ne _ _ (by decide) n

theorem sfInv_preserved {s t : SFState} (inv : SFInv s) (h : SFStep s t) :
    SFInv t := by
  cases h with
  | hit l r hc hcp =>
    intro hres
    have := inv hres
    rw [this.1] at hcp
    exact absurd hcp (by decide)
  | joinFlight l r hc hcp hf =>
    intro hres
    obtain ⟨hcache, hdone, hbranch⟩ := inv hres
    rcases hbranch with ⟨_, hl, hown⟩ | ⟨hinf, _, _, _⟩
    · rw [hc] at hdone hown
      refine ⟨hcache, ?_, Or.inl ⟨hf, hl, ?_⟩⟩
      · show countEq CallerPC.done (l ++ CallerPC.join :: r) = 0
        rw [countEq_append] at hdone ⊢
        simp [countEq] at hdone ⊢
        omega
      · show countEq CallerPC.own (l ++ CallerPC.join :: r) = 1
        rw [countEq_append] at hown ⊢
        simp [countEq] at hown ⊢
        omega
    · rw [hinf] at hf; exact absurd hf (by decide)
  | load l r hc hcp hf =>
    intro hres
    obtain ⟨hcache, hdone, hbranch⟩ := inv hres
    rcases hbranch with ⟨hinf, _, _⟩ | ⟨_, hl, hown, _⟩
    · rw [hinf] at hf; exact absurd hf (by decide)
    · rw [hc] at hdone hown
      refine ⟨hcache, ?_, Or.inl ⟨rfl, ?_, ?_⟩⟩
      · show countEq CallerPC.done (l ++ CallerPC.own :: r) = 0
        rw [countEq_append] at hdone ⊢
        simp [countEq] at hdone ⊢
        omega
      · show s.loads + 1 = 1
        omega
      · show countEq CallerPC.own (l ++ CallerPC.own :: r) = 1
        rw [countEq_append] at hown ⊢
        simp [countEq] at hown ⊢
        omega
  | resolveOk l r found hc =>
    intro hres
    exact absurd hres (by simp)
  | resolveErr l r hc =>
    intro hres
    exact absurd hres (by simp)

theorem sfReach_inv {n : Nat} {s : SFState} (h : SFReach n s) : SFInv s := by
  induction h with
  | init => exact sfInv_init n
  | step _ hstep ih => exact sfInv_preserved ih hstep

/-- Every caller is in exactly one of the four phases. -/
theorem callerCount_partition (l : List CallerPC) :
    countEq CallerPC.start l + countEq CallerPC.own l +
      countEq CallerPC.join l + countEq CallerPC.done l = l.length := by
  induction l with
  | nil => rfl
  | cons c t ih =>
    simp only [countEq, List.length_cons]
    cases c <;> simp <;> omega

/-! ## Claim theorems -/

/-- C6. Outside shutdown, whenever the flush queue holds more than the
overload threshold of 50 pending batches, `WriteBuffer.add` fails fast
with the `EOVERLOAD` overload error and leaves the buffer state (ingress
buffer, queues, cache, stats) completely unchanged. -/
theorem writeBuffer_overload_fail_fast (st : WBState) (ops : List Op)
    (cacheUpdates : List (String × Option Rec))
    (hsd : st.isShuttingDown = false)
    (hq : st.flushQueue.length > 50) :
    WriteBuffer.add st ops cacheUpdates = (st, .overload "EOVERLOAD") := by
  unfold WriteBuffer.add
  rw [if_neg (by simp [hsd]), if_pos hq]

/-- Witness for C6: a buffer with 51 pending batches rejects an intent and
is left untouched. -/
theorem writeBuffer_overload_fail_fast_witness :
    wbOverloaded.isShuttingDown = false ∧
      wbOverloaded.flushQueue.length > 50 ∧
      WriteBuffer.add wbOverloaded [] [] =
        (wbOverloaded, .overload "EOVERLOAD") :=
  ⟨rfl, by decide,
    writeBuffer_overload_fail_fast wbOverloaded [] [] rfl (by decide)⟩

/-- C7. In every reachable state of the flush path there is at most one
drain worker, hence at most one batch commit (`_flushNow`) in flight; and
while the `isFlushing` guard is down no commit is in flight at all (the
guard is cleared only after the running drain finishes). -/
theorem flush_single_committer (s : FlushState) (h : FlushReach s) :
    s.workers.length ≤ 1 ∧ commitsInFlight s ≤ 1 ∧
      (s.isFlushing = false → commitsInFlight s = 0) := by
  have inv := flushReach_inv h
  refine ⟨inv.2, le_trans (countEq_le_length _ _) inv.2, ?_⟩
  intro hf
  have hw : s.workers = [] := by
    by_contra hne
    rw [inv.1.mpr hne] at hf
    cases hf
  simp [commitsInFlight, hw, countEq]

/-- Witness for C7: the state reached by one `add` and one `flush` (a
single idle worker holding the guard) satisfies the mutual-exclusion
bounds. -/
theorem flush_single_committer_witness :
    ([WorkerPC.idle] : List WorkerPC).length ≤ 1 ∧
      commitsInFlight ⟨0, 1, true, [WorkerPC.idle]⟩ ≤ 1 ∧
      ((⟨0, 1, true, [WorkerPC.idle]⟩ : FlushState).isFlushing = false →
        commitsInFlight ⟨0, 1, true, [WorkerPC.idle]⟩ = 0) :=
  flush_single_committer _
    (FlushReach.step (FlushReach.step FlushReach.init (FlushStep.add _))
      (FlushStep.flushSwap _ (by decide)))

/-- C8. Before the first load resolves, every reachable single-flight
state has at most one loader invocation — exactly one KV read — (exactly
one once any caller has progressed, and exactly one while an in-flight
entry exists), no caller has returned, and at most one caller owns the
load (the rest are joiners); moreover any step that completes the load
(successfully or not) removes the in-flight entry. -/
theorem singleflight_at_most_one_load (n : Nat) :
    (∀ s, SFReach n s → s.resolved = false →
      s.loads ≤ 1 ∧ countEq CallerPC.done s.callers = 0 ∧
      countEq CallerPC.own s.callers ≤ 1 ∧
      (s.inflight = true → s.loads = 1) ∧
      (countEq CallerPC.start s.callers ≠ s.callers.length →
        s.loads = 1)) ∧
    (∀ s t, SFStep s t → s.resolved = false → t.resolved = true →
      t.inflight = false) := by
  constructor
  · intro s hreach hres
    obtain ⟨hcache, hdone, hbranch⟩ := sfReach_inv hreach hres
    rcases hbranch with ⟨hinf, hl, hown⟩ | ⟨hinf, hl, hown, hjoin⟩
    · exact ⟨by omega, hdone, by omega, fun _ => hl, fun _ => hl⟩
    · refine ⟨by omega, hdone, by omega, ?_, ?_⟩
      · intro h; rw [h] at hinf; cases hinf
      · intro hne
        exfalso
        apply hne
        have := callerCount_partition s.callers
        omega
  · intro s t hstep hres hres2
    cases hstep with
    | hit l r hc hcp =>
      have h2 : s.resolved = true := hres2
      rw [hres] at h2; cases h2
    | joinFlight l r hc hcp hf =>
      have h2 : s.resolved = true := hres2
      rw [hres] at h2; cases h2
    | load l r hc hcp hf =>
      have h2 : s.resolved = true := hres2
      rw [hres] at h2; cases h2
    | resolveOk l r found hc => rfl
    | resolveErr l r hc => rfl

/-- Witness for C8: with two callers, after the first starts the load and
the second joins it, there is one load, one owner, one joiner, nobody
done. -/
theorem singleflight_at_most_one_load_witness :
    (1 : Nat) ≤ 1 ∧
      countEq CallerPC.done [CallerPC.own, CallerPC.join] = 0 ∧
      countEq CallerPC.own [CallerPC.own, CallerPC.join] ≤ 1 ∧
      (true = true → (1 : Nat) = 1) ∧
      (countEq CallerPC.start [CallerPC.own, CallerPC.join] ≠
          ([CallerPC.own, CallerPC.join] : List CallerPC).length →
        (1 : Nat) = 1) :=
  (singleflight_at_most_one_load 2).1 _
    (SFReach.step
      (SFReach.step SFReach.init
        (SFStep.load _ [] [CallerPC.start] rfl rfl rfl))
      (SFStep.joinFlight _ [CallerPC.own] [] rfl rfl rfl))
    rfl

/-- C9 counterexample. The padding normalization is *not* order-preserving
on all numbers. Two violations: `-5 < -3`, yet the index key produced for
`-5` is lexicographically *greater* than the one produced for `-3` (the
sign character defeats the zero padding); and `1.5 < 2` with both in
`[0, 10^20)`, yet the key for `1.5` (`"000000000000000001.5"`) is greater
than the key for `2` (`"00000000000000000002"`) — the decimal point shifts
the integer digits left of the padding. -/
theorem indexKey_order_counterexample :
    (((-5 : Int) < -3) ∧
      strLtb (Indexer.getKey "posts" "score" (.num (-5)) "r1")
        (Indexer.getKey "posts" "score" (.num (-3)) "r1") = false ∧
      strLtb (Indexer.getKey "posts" "score" (.num (-3)) "r1")
        (Indexer.getKey "posts" "score" (.num (-5)) "r1") = true) ∧
    (numValue (.dec false 1 [5]) = some (3 / 2) ∧
      numValue (.num 2) = some 2 ∧
      ((3 : ℚ) / 2 < 2) ∧
      strLtb (Indexer.getKey "posts" "score" (.dec false 1 [5]) "r1")
        (Indexer.getKey "posts" "score" (.num 2) "r1") = false ∧
      strLtb (Indexer.getKey "posts" "score" (.num 2) "r1")
        (Indexer.getKey "posts" "score" (.dec false 1 [5]) "r1") = true) :=
  ⟨⟨by decide, by decide, by decide⟩,
    by norm_num [numValue, valBE, List.foldl_cons, List.foldl_nil],
    by norm_num [numValue], by norm_num, by decide, by decide⟩

/-- C9 (amended). Only on *integer-valued*, non-negative numbers below
`10 ^ 20` (whose decimal rendering fits the 20-character padding with no
sign and no decimal point) is `Indexer.getKey` order-preserving: there
`a < b` gives a lexicographically smaller key, so prefix range scans
enumerate numeric order; negative and non-integer values break the order
(see the counterexample). -/
theorem indexKey_numeric_order (collection field id : String) (a b : Int)
    (ha : 0 ≤ a) (hab : a < b) (hb : b.toNat < 10 ^ 20) :
    strLtb (Indexer.getKey collection field (.num a) id)
      (Indexer.getKey collection field (.num b) id) = true := by
  have hb0 : 0 ≤ b := le_trans ha (le_of_lt hab)
  have hna : a.toNat < b.toNat := by omega
  have hkey : ∀ n : Int, 0 ≤ n →
      Indexer.getKey collection field (.num n) id =
        "idx:" ++ collection ++ ":" ++ field ++ ":" ++
          padStart (natToString n.toNat) 20 '0' ++ ":" ++ id := by
    intro n hn
    show "idx:" ++ collection ++ ":" ++ field ++ ":" ++
        padStart (intToString n) 20 '0' ++ ":" ++ id = _
    rw [intToString, if_neg (show ¬(n < 0) by omega)]
  rw [hkey a ha, hkey b hb0]
  unfold strLtb
  have hdata : ∀ n : Nat,
      ("idx:" ++ collection ++ ":" ++ field ++ ":" ++
          padStart (natToString n) 20 '0' ++ ":" ++ id).data =
        ("idx:".data ++ (collection.data ++ (":".data ++ (field.data ++
          ":".data)))) ++
          (((paddedDigits n).map Nat.digitChar) ++ (":".data ++ id.data)) := by
    intro n
    simp [String.data_append, padStart_natToString_data, List.append_assoc]
  rw [hdata, hdata, listLtb_append_left]
  apply listLtb_append_right
  · rw [List.length_map, List.length_map,
      paddedDigits_length _ (lt_trans hna hb), paddedDigits_length _ hb]
  · exact paddedDigits_listLtb _ _ hna hb

/-- Witness for C9 (amended): `0 < 1` below `10 ^ 20` gives ordered
keys. -/
theorem indexKey_numeric_order_witness :
    ((0 : Int) ≤ 0) ∧ ((0 : Int) < 1) ∧ ((1 : Int).toNat < 10 ^ 20) ∧
      strLtb (Indexer.getKey "posts" "score" (.num 0) "r1")
        (Indexer.getKey "posts" "score" (.num 1) "r1") = true :=
  ⟨by decide, by decide, by decide,
    indexKey_numeric_order "posts" "score" "r1" 0 1 (by decide) (by decide)
      (by decide)⟩

/-- C5 counterexample. On persistent version conflicts the engine makes
exactly 3 attempts (2 retries) and sleeps only 10 ms and 20 ms — the
claimed third retry with a 40 ms back-off never happens (`attempt <
maxRetries - 1` stops the loop first). -/
theorem retry_sleeps_counterexample :
    (retryOnConflict conflictFn).sleeps = [10, 20] ∧
      (retryOnConflict conflictFn).calls = 3 ∧
      (retryOnConflict conflictFn).result = .error .versionConflict ∧
      ¬((retryOnConflict conflictFn).sleeps = [10, 20, 40]) :=
  ⟨by decide, by decide, rfl, by decide⟩

/-- C5 (amended). `_retryOnConflict` (wrapping update and delete; create
is not wrapped) makes at most 3 attempts in total, with back-off sleeps
that are a prefix of `[10, 20]` ms; a first-attempt success returns at
once, and a first-attempt failure whose message does not contain
`Version conflict` propagates immediately, with no sleep and no retry. -/
theorem retry_behavior {α : Type} (fn : Nat → Except EngineError α) :
    (retryOnConflict fn).calls ≤ 3 ∧
    ((retryOnConflict fn).sleeps = [] ∨ (retryOnConflict fn).sleeps = [10] ∨
      (retryOnConflict fn).sleeps = [10, 20]) ∧
    (∀ a, fn 0 = .ok a → retryOnConflict fn = ⟨.ok a, [], 1⟩) ∧
    (∀ e, fn 0 = .error e → retriesOn e = false →
      retryOnConflict fn = ⟨.error e, [], 1⟩) := by
  refine ⟨?_, ?_, ?_, ?_⟩
  case refine_3 =>
    intro a h0
    simp [retryOnConflict, retryGo, h0]
  case refine_4 =>
    intro e h0 hre
    simp [retryOnConflict, retryGo, h0, hre]
  all_goals
    cases h0 : fn 0 with
    | ok a0 => simp [retryOnConflict, retryGo, h0]
    | error e0 =>
      by_cases hr0 : retriesOn e0 = true
      case neg =>
        simp [retryOnConflict, retryGo, h0, hr0]
      case pos =>
        cases h1 : fn 1 with
        | ok a1 => simp [retryOnConflict, retryGo, h0, hr0, h1]
        | error e1 =>
          by_cases hr1 : retriesOn e1 = true
          case neg =>
            simp [retryOnConflict, retryGo, h0, hr0, h1, hr1]
          case pos =>
            cases h2 : fn 2 with
            | ok a2 => simp [retryOnConflict, retryGo, h0, hr0, h1, hr1, h2]
            | error e2 =>
              simp [retryOnConflict, retryGo, h0, hr0, h1, hr1, h2]

/-- Witness for C5 (amended): an immediately succeeding body runs once,
with no sleeps. -/
theorem retry_behavior_witness :
    retryOnConflict (fun _ => .ok (42 : Nat)) =
      ⟨.ok 42, [], 1⟩ :=
  (retry_behavior (fun _ => .ok (42 : Nat))).2.2.1 42 rfl

/-- C1 (code bug). After `create` commits, the shared cache holds the
*raw* record; the subsequent `get` is served from that cache entry and
returns it unchanged, so the `private` field `password` is present in the
value `get` returns (the claim requires it absent). -/
theorem create_then_get_returns_private_field :
    (match Engine.create testEnv DBState.empty "users" "usr000000000001"
        "2026-01-01T00:00:00Z"
        [("email", .str "x@y"), ("password", .str "hash")] with
     | .ok p =>
       ((Engine.get testEnv p.2 "users" "usr000000000001").1).map
         (fun r => recGet r "password")
     | .error _ => none) = some (some (.str "hash")) := by
  decide

/-- C2 (code bug). A prior external `get` on a cold cache stores the
*sanitized* record in the shared cache; the next `update`'s `_getRaw` is
served that sanitized entry, so the merge loses the stored `private`
field: the update succeeds and the stored record no longer carries
`secret` (the claim requires the old stored value preserved). -/
theorem update_after_get_drops_private_field :
    recGet noteRecord "secret" = some (.str "s3cret") ∧
    ((match Engine.update testEnv
          (Engine.get testEnv noteDB "notes" "note0000000000A").2
          "notes" "note0000000000A" "2026-01-02T00:00:00Z"
          [("title", .str "u")] with
      | .ok p => (alGet p.2.main "notes:note0000000000A").map
          (fun r => recGet r "secret")
      | .error _ => none) = some none) :=
  ⟨rfl, by decide⟩

/-- C3 (code bug). Two concurrent creates with the same unique `email`
both pass `checkUniqueness` against the committed index before either
flush; the group commit then writes both primary rows, both callbacks
fire with no error, and two committed records share the unique value
(the claim requires exactly one to fail with `UniquenessViolation`). -/
theorem concurrent_creates_duplicate_unique_value :
    (match Engine.createPhase1 testEnv wbInit "users" "usrAAAAAAAAAAA1"
        "2026-01-01T00:00:00Z"
        [("email", .str "x@y"), ("password", .str "p1")] with
     | .ok p1 =>
       match Engine.createPhase1 testEnv p1.1 "users" "usrBBBBBBBBBBB2"
           "2026-01-01T00:00:00Z"
           [("email", .str "x@y"), ("password", .str "p2")] with
       | .ok p2 =>
         some
           ((WriteBuffer.flushCommit p2.1).2,
            (alGet (WriteBuffer.flushCommit p2.1).1.db.main
                "users:usrAAAAAAAAAAA1").bind (fun r => recGet r "email"),
            (alGet (WriteBuffer.flushCommit p2.1).1.db.main
                "users:usrBBBBBBBBBBB2").bind (fun r => recGet r "email"))
       | .error _ => none
     | .error _ => none) =
    some ([0, 1], some (.str "x@y"), some (.str "x@y")) := by
  decide

/-- C10 counterexample. `create` stores payload extras verbatim, including
an `_expectedVersion` key; a later successful `update` whose patch carries
a matching `_expectedVersion` removes it from the *patch* only — the
merged record inherits the stored `_expectedVersion` binding from the old
record, so the stored result still has the key. -/
theorem expectedVersion_persisted_counterexample :
    (match Engine.create testEnv DBState.empty "notes" "note0000000000B"
        "2026-01-01T00:00:00Z"
        [("title", .str "a"), ("_expectedVersion", .num 1)] with
     | .ok p =>
       match Engine.update testEnv p.2 "notes" "note0000000000B"
           "2026-01-02T00:00:00Z"
           [("_expectedVersion", .num 1), ("title", .str "b")] with
       | .ok q => (alGet q.2.main "notes:note0000000000B").map
           (fun r => recGet r "_expectedVersion")
       | .error _ => none
     | .error _ => none) = some (some (.num 1)) := by
  decide

/-! ## Shape lemmas for successful mutations -/

theorem mergeRecord_version (old data : Rec) (id now : String) :
    recGet (Engine.mergeRecord old data id now) "_version" =
      some (.num ((match recGet old "_version" with
        | some (.num n) => n
        | _ => 0) + 1)) := by
  simp [Engine.mergeRecord, recGet]

theorem mergeRecord_recGet (old data : Rec) (id now k : String)
    (h1 : k ≠ "id") (h2 : k ≠ "updated") (h3 : k ≠ "created")
    (h4 : k ≠ "_version") :
    recGet (Engine.mergeRecord old data id now) k =
      recGet (data ++ old) k := by
  unfold Engine.mergeRecord
  simp only [recGet, if_neg (Ne.symm h4)]
  cases hc : recGet old "created" with
  | some v =>
    simp only [recSetOpt, recGet, if_neg (Ne.symm h3), if_neg (Ne.symm h2),
      if_neg (Ne.symm h1)]
  | none =>
    simp only [recSetOpt, recGet, if_neg (Ne.symm h2), if_neg (Ne.symm h1)]
    exact recGet_remove_ne _ _ _ (Ne.symm h3)

/-- The committed primary row of a successful `update` is the merged
record (and the returned value its sanitization), with the patch stripped
of `_expectedVersion` exactly when the patch carried one (in which case
it matched the current version). -/
theorem update_ok_stored (Γ : SchemaEnv) (st : DBState) (c id now : String)
    (data old : Rec) (r : Rec) (st1 : DBState)
    (hold : (Engine.getRaw st c id).1 = some old)
    (h : Engine.update Γ st c id now data = .ok (r, st1)) :
    ((recGet data "_expectedVersion" = none ∧
        alGet st1.main (c ++ ":" ++ id) =
          some (Engine.mergeRecord old data id now) ∧
        r = Engine.sanitize Γ c (Engine.mergeRecord old data id now)) ∨
     (∃ ev, recGet data "_expectedVersion" = some ev ∧
        recGet old "_version" = some ev ∧
        alGet st1.main (c ++ ":" ++ id) =
          some (Engine.mergeRecord old
            (recRemove data "_expectedVersion") id now) ∧
        r = Engine.sanitize Γ c (Engine.mergeRecord old
          (recRemove data "_expectedVersion") id now))) := by
  simp only [Engine.update] at h
  rw [hold] at h
  have stored : ∀ dataP : Rec,
      (Except.ok (Engine.sanitize Γ c (Engine.mergeRecord old dataP id now),
        applyCacheUpdates
          (applyOps (Engine.getRaw st c id).2
            (Op.putMain (c ++ ":" ++ id)
                (Engine.mergeRecord old dataP id now) ::
              Indexer.getBatchOperations c id
                (some (Engine.mergeRecord old dataP id now)) (some old)
                (Γ c)))
          [(c ++ ":" ++ id, some (Engine.mergeRecord old dataP id now))]) :
        Except EngineError (Rec × DBState)) = .ok (r, st1) →
      alGet st1.main (c ++ ":" ++ id) =
        some (Engine.mergeRecord old dataP id now) ∧
      r = Engine.sanitize Γ c (Engine.mergeRecord old dataP id now) := by
    intro dataP hok
    rw [Except.ok.injEq, Prod.mk.injEq] at hok
    obtain ⟨hr, hst⟩ := hok
    subst hst
    refine ⟨?_, hr.symm⟩
    rw [applyCacheUpdates_main]
    simp only [applyOps, List.foldl_cons]
    rw [show List.foldl applyOp
        (applyOp (Engine.getRaw st c id).2
          (Op.putMain (c ++ ":" ++ id)
            (Engine.mergeRecord old dataP id now)))
        (Indexer.getBatchOperations c id
          (some (Engine.mergeRecord old dataP id now)) (some old) (Γ c)) =
      applyOps
        (applyOp (Engine.getRaw st c id).2
          (Op.putMain (c ++ ":" ++ id)
            (Engine.mergeRecord old dataP id now)))
        (Indexer.getBatchOperations c id
          (some (Engine.mergeRecord old dataP id now)) (some old) (Γ c))
      from rfl]
    rw [applyOps_idx_main _ _ (getBatchOperations_isIdx _ _ _ _ _)]
    exact alGet_put_self _ _ _
  cases hev : recGet data "_expectedVersion" with
  | none =>
    left
    refine ⟨rfl, ?_⟩
    rw [hev] at h
    dsimp only at h
    split at h
    · exact absurd h (by simp)
    · split at h
      · exact absurd h (by simp)
      · exact stored data h
  | some ev =>
    right
    rw [hev] at h
    dsimp only at h
    split at h
    · exact absurd h (by simp)
    · rename_i dataP heq
      split at heq
      · exact absurd heq (by simp)
      · rename_i hcond
        rw [Except.ok.injEq] at heq
        subst heq
        refine ⟨ev, rfl, not_not.mp hcond, ?_⟩
        split at h
        · exact absurd h (by simp)
        · split at h
          · exact absurd h (by simp)
          · exact stored _ h

/-- Sanitization never introduces a key: an absent key stays absent. -/
theorem sanitize_recGet_none (Γ : SchemaEnv) (c : String) (r : Rec)
    (k : String) (h : recGet r k = none) :
    recGet (Engine.sanitize Γ c r) k = none := by
  unfold Engine.sanitize
  cases hs : Γ c with
  | none => exact h
  | some s =>
    have main : ∀ (fields : List Field) (r0 : Rec), recGet r0 k = none →
        recGet (fields.foldl
          (fun clean f =>
            if f.«private» then recRemove clean f.name else clean) r0) k =
          none := by
      intro fields
      induction fields with
      | nil => intro r0 h0; exact h0
      | cons f t ihf =>
        intro r0 h0
        simp only [List.foldl_cons]
        apply ihf
        by_cases hp : f.«private» = true
        · rw [if_pos hp]
          by_cases hk : f.name = k
          · rw [hk]; exact recGet_remove_self r0 k
          · rw [recGet_remove_ne r0 k f.name hk]; exact h0
        · rw [if_neg hp]; exact h0
    exact main s.fields r h

/-- The committed primary row and the returned value of a successful
`create`. -/
theorem create_ok_stored (Γ : SchemaEnv) (st : DBState) (c id now : String)
    (data : Rec) (r : Rec) (st1 : DBState)
    (h : Engine.create Γ st c id now data = .ok (r, st1)) :
    alGet st1.main (c ++ ":" ++ id) =
      some (("_version", Value.num 1) :: ("updated", .str now) ::
        ("created", .str now) :: ("id", .str id) :: data) ∧
    r = Engine.sanitize Γ c (("_version", Value.num 1) ::
      ("updated", .str now) :: ("created", .str now) ::
      ("id", .str id) :: data) := by
  simp only [Engine.create] at h
  split at h
  · exact absurd h (by simp)
  · split at h
    · exact absurd h (by simp)
    · rw [Except.ok.injEq, Prod.mk.injEq] at h
      obtain ⟨hr, hst⟩ := h
      subst hst
      refine ⟨?_, hr.symm⟩
      rw [applyCacheUpdates_main]
      simp only [applyOps, List.foldl_cons]
      rw [show List.foldl applyOp
          (applyOp st (Op.putMain (c ++ ":" ++ id)
            (("_version", Value.num 1) :: ("updated", .str now) ::
              ("created", .str now) :: ("id", .str id) :: data)))
          (Indexer.getBatchOperations c id
            (some (("_version", Value.num 1) :: ("updated", .str now) ::
              ("created", .str now) :: ("id", .str id) :: data)) none (Γ c)) =
        applyOps
          (applyOp st (Op.putMain (c ++ ":" ++ id)
            (("_version", Value.num 1) :: ("updated", .str now) ::
              ("created", .str now) :: ("id", .str id) :: data)))
          (Indexer.getBatchOperations c id
            (some (("_version", Value.num 1) :: ("updated", .str now) ::
              ("created", .str now) :: ("id", .str id) :: data)) none (Γ c))
        from rfl]
      rw [applyOps_idx_main _ _ (getBatchOperations_isIdx _ _ _ _ _)]
      exact alGet_put_self _ _ _

/-- An `_expectedVersion` that disagrees with the stored `_version` makes
`update` fail with the version-conflict error. -/
theorem update_conflict (Γ : SchemaEnv) (st : DBState)
    (c id now : String) (data old : Rec) (ev : Value)
    (hold : (Engine.getRaw st c id).1 = some old)
    (hev : recGet data "_expectedVersion" = some ev)
    (hver : recGet old "_version" ≠ some ev) :
    Engine.update Γ st c id now data = .error .versionConflict := by
  simp only [Engine.update]
  rw [hold]
  dsimp only
  rw [hev]
  dsimp only
  rw [if_pos hver]

/-- A supplied `expectedVersion` that disagrees with the stored `_version`
makes `delete` fail with the version-conflict error. -/
theorem delete_conflict (Γ : SchemaEnv) (st : DBState) (c id : String)
    (old : Rec) (ev : Value)
    (hold : (Engine.getRaw st c id).1 = some old)
    (hver : recGet old "_version" ≠ some ev) :
    Engine.delete Γ st c id (some ev) = .error .versionConflict := by
  simp only [Engine.delete]
  rw [hold]
  dsimp only
  rw [if_pos (bne_iff_ne.mpr hver)]

/-- C4. `_version` protocol: a successful `create` stores `_version = 1`
(and returns it, whenever no schema field marks `_version` private); a
successful `update` stores exactly the old `_version` plus one; and a
mismatching caller-supplied expected version (`_expectedVersion` on
update, `expectedVersion` on delete) fails with `VersionConflict`. -/
theorem version_protocol (Γ : SchemaEnv) (st : DBState) (c id now : String)
    (data : Rec) :
    (∀ r st1, Engine.create Γ st c id now data = .ok (r, st1) →
      (alGet st1.main (c ++ ":" ++ id)).bind
          (fun nr => recGet nr "_version") = some (.num 1) ∧
        ((∀ s, Γ c = some s → ∀ f ∈ s.fields, f.«private» = true →
            f.name ≠ "_version") →
          recGet r "_version" = some (.num 1))) ∧
    (∀ old n r st1, (Engine.getRaw st c id).1 = some old →
      recGet old "_version" = some (.num n) →
      Engine.update Γ st c id now data = .ok (r, st1) →
      (alGet st1.main (c ++ ":" ++ id)).bind
        (fun nr => recGet nr "_version") = some (.num (n + 1))) ∧
    (∀ old ev, (Engine.getRaw st c id).1 = some old →
      recGet data "_expectedVersion" = some ev →
      recGet old "_version" ≠ some ev →
      Engine.update Γ st c id now data = .error .versionConflict) ∧
    (∀ old ev, (Engine.getRaw st c id).1 = some old →
      recGet old "_version" ≠ some ev →
      Engine.delete Γ st c id (some ev) = .error .versionConflict) := by
  refine ⟨?_, ?_, ?_, ?_⟩
  · intro r st1 h
    obtain ⟨hstored, hr⟩ := create_ok_stored Γ st c id now data r st1 h
    constructor
    · rw [hstored]
      simp [recGet]
    · intro hpriv
      rw [hr, sanitize_recGet Γ c _ _ hpriv]
      simp [recGet]
  · intro old n r st1 hold hver h
    rcases update_ok_stored Γ st c id now data old r st1 hold h with
      ⟨_, hst, _⟩ | ⟨ev, _, _, hst, _⟩ <;>
    · rw [hst]
      dsimp only [Option.bind]
      rw [mergeRecord_version, hver]
  · intro old ev hold hev hver
    exact update_conflict Γ st c id now data old ev hold hev hver
  · intro old ev hold hver
    exact delete_conflict Γ st c id old ev hold hver

/-- Witness for C4: updating `noteRecord` (stored `_version = 1`) with
`_expectedVersion = 9` fails with the version-conflict error. -/
theorem version_protocol_witness :
    Engine.update testEnv noteDB "notes" "note0000000000A"
        "2026-01-02T00:00:00Z" [("_expectedVersion", .num 9)] =
      .error .versionConflict :=
  (version_protocol testEnv noteDB "notes" "note0000000000A"
      "2026-01-02T00:00:00Z" [("_expectedVersion", .num 9)]).2.2.1
    noteRecord (.num 9) (by decide) rfl (by decide)

/-- C10 (amended). A successful `update` whose patch carries a matching
`_expectedVersion` never re-introduces it from the patch: provided the
stored record being updated does not itself carry an `_expectedVersion`
binding (records created from clean payloads never do), neither the
committed record nor the returned (sanitized) record has an
`_expectedVersion` key, and every patch field other than
`_expectedVersion` and the engine-owned `id`, `updated`, `created`,
`_version` is merged into the committed record unchanged. -/
theorem expectedVersion_consumed (Γ : SchemaEnv) (st : DBState)
    (c id now : String) (data old : Rec) (ev : Value)
    (hold : (Engine.getRaw st c id).1 = some old)
    (hnold : recGet old "_expectedVersion" = none)
    (hev : recGet data "_expectedVersion" = some ev) :
    ∀ r st1, Engine.update Γ st c id now data = .ok (r, st1) →
      recGet r "_expectedVersion" = none ∧
      ∀ nr, alGet st1.main (c ++ ":" ++ id) = some nr →
        recGet nr "_expectedVersion" = none ∧
        (∀ k v, k ≠ "_expectedVersion" → k ≠ "id" → k ≠ "updated" →
          k ≠ "created" → k ≠ "_version" → recGet data k = some v →
          recGet nr k = some v) := by
  intro r st1 h
  rcases update_ok_stored Γ st c id now data old r st1 hold h with
    ⟨hev2, _, _⟩ | ⟨ev2, _, _, hst, hr⟩
  · rw [hev] at hev2; cases hev2
  · have hmerged : recGet (Engine.mergeRecord old
        (recRemove data "_expectedVersion") id now) "_expectedVersion" =
        none := by
      rw [mergeRecord_recGet _ _ _ _ _ (by decide) (by decide) (by decide)
        (by decide)]
      rw [recGet_append, recGet_remove_self]
      exact hnold
    constructor
    · rw [hr]
      exact sanitize_recGet_none Γ c _ _ hmerged
    · intro nr hnr
      rw [hst] at hnr
      injection hnr with hnr
      subst hnr
      constructor
      · exact hmerged
      · intro k v hk1 hk2 hk3 hk4 hk5 hdata
        rw [mergeRecord_recGet _ _ _ _ _ hk2 hk3 hk4 hk5]
        rw [recGet_append, recGet_remove_ne _ _ _ (Ne.symm hk1), hdata]

/-- Witness for C10 (amended): the concrete update of `noteRecord` leaves
no `_expectedVersion` in either the returned record or the stored row,
and the stored row carries the patched title. -/
theorem expectedVersion_consumed_witness :
    recGet c10Result.1 "_expectedVersion" = none ∧
      recGet c10Stored "_expectedVersion" = none ∧
      recGet c10Stored "title" = some (.str "b") :=
  have happ := expectedVersion_consumed testEnv noteDB "notes"
    "note0000000000A" "2026-01-02T00:00:00Z"
    [("_expectedVersion", .num 1), ("title", .str "b")] noteRecord
    (.num 1) (by decide) (by decide) rfl c10Result.1 c10Result.2 rfl
  ⟨happ.1,
    (happ.2 c10Stored (by decide)).1,
    (happ.2 c10Stored (by decide)).2 "title" (.str "b") (by decide)
      (by decide) (by decide) (by decide) (by decide) rfl⟩

end NanoDB
